import Mathlib

/-!
Verification of the release-orchestration engine of the aetheria CLI
(`src/commands/utility/map-dependencies.ts`: the `Publish` and
`MapDependencies` commands), as a shallow embedding.

The `Publish` pipeline delegates version arithmetic to the `semver` npm
package (`gt`, `inc`), so the first section models semantic versions, the
node-semver comparison (`compare`/`gt`, which ignores build metadata), the
node-semver `inc` operation (which returns `null` on an unparsable input)
and the node-semver parser (`new SemVer(...)`) over plain strings.
-/

namespace Aetheria

/-- A prerelease identifier: node-semver stores all-digit identifiers below
`Number.MAX_SAFE_INTEGER` as numbers, every other identifier as a string. -/
inductive PreId where
  | num (n : Nat)
  | str (s : String)
deriving DecidableEq, Repr

/-- A parsed semantic version, as held by node-semver's `SemVer` class:
`major.minor.patch`, the prerelease identifiers and the build identifiers. -/
structure SemVer where
  major : Nat
  minor : Nat
  patch : Nat
  prerelease : List PreId
  build : List String
deriving DecidableEq, Repr

/-- JS string comparison as used by node-semver `compareIdentifiers`
(`a === b ? 0 : a < b ? -1 : 1`), over Lean's lexicographic string order. -/
def strCmp (a b : String) : Ordering :=
  if a < b then .lt else if a = b then .eq else .gt

/-- node-semver `compareIdentifiers` on two prerelease identifiers:
numeric identifiers compare numerically and sort below alphanumeric ones,
alphanumeric identifiers compare as strings. -/
def comparePreId : PreId → PreId → Ordering
  | .num a, .num b => compare a b
  | .num _, .str _ => .lt
  | .str _, .num _ => .gt
  | .str a, .str b => strCmp a b

/-- The element-by-element part of node-semver `comparePre`: once both
versions are known to have a prerelease, identifiers compare pointwise and
the version that runs out of identifiers first is the smaller one. -/
def comparePreRest : List PreId → List PreId → Ordering
  | [], [] => .eq
  | [], _ :: _ => .lt
  | _ :: _, [] => .gt
  | a :: as, b :: bs => (comparePreId a b).then (comparePreRest as bs)

/-- node-semver `comparePre`: a version without prerelease identifiers is
greater than one with them; otherwise identifiers compare pointwise. -/
def comparePre (a b : List PreId) : Ordering :=
  match a, b with
  | [], [] => .eq
  | [], _ :: _ => .gt
  | _ :: _, [] => .lt
  | _ :: _, _ :: _ => comparePreRest a b

/-- The prerelease component of the main comparison, as a comparator on
whole versions. -/
def preFieldCmp (a b : SemVer) : Ordering :=
  comparePre a.prerelease b.prerelease

/-- node-semver `compare`: lexicographic on major, minor, patch, then the
prerelease rule. Build metadata is ignored, as the semver spec demands. -/
def semverCmp : SemVer → SemVer → Ordering :=
  compareLex (compareOn SemVer.major)
    (compareLex (compareOn SemVer.minor)
      (compareLex (compareOn SemVer.patch) preFieldCmp))

/-- node-semver `gt(a, b)`: `compare(a, b) > 0`. -/
def semverGt (a b : SemVer) : Bool :=
  semverCmp a b == .gt

/-- The three release kinds the pipeline passes to node-semver `inc`. -/
inductive Release where
  | major
  | minor
  | patch
deriving DecidableEq, Repr

/-- node-semver `SemVer.prototype.inc` for the `major`, `minor` and `patch`
release kinds, followed by `.version` formatting (which drops build
metadata). A prerelease version whose lower components are zero is only
promoted, not incremented: `inc("1.0.0-alpha", "patch") = "1.0.0"`. -/
def incVersion (r : Release) (v : SemVer) : SemVer :=
  match r with
  | .major =>
    let major := if v.minor ≠ 0 ∨ v.patch ≠ 0 ∨ v.prerelease = [] then v.major + 1 else v.major
    ⟨major, 0, 0, [], []⟩
  | .minor =>
    let minor := if v.patch ≠ 0 ∨ v.prerelease = [] then v.minor + 1 else v.minor
    ⟨v.major, minor, 0, [], []⟩
  | .patch =>
    let patch := if v.prerelease = [] then v.patch + 1 else v.patch
    ⟨v.major, v.minor, patch, [], []⟩

/-- Split a character list at every occurrence of `sep` (the pieces do not
contain `sep`; mirrors `String.prototype.split` on a single character). -/
def splitCharOn (sep : Char) : List Char → List (List Char)
  | [] => [[]]
  | c :: cs =>
    match splitCharOn sep cs with
    | [] => [[c]]
    | h :: t => if c = sep then [] :: h :: t else (c :: h) :: t

/-- Break a character list at the first occurrence of `sep`: the part
before it, and (when `sep` occurs) the part after it. -/
def breakAt (sep : Char) : List Char → List Char × Option (List Char)
  | [] => ([], none)
  | c :: cs =>
    if c = sep then ([], some cs)
    else
      let r := breakAt sep cs
      (c :: r.1, r.2)

/-- The JS `Number.MAX_SAFE_INTEGER` value, the bound node-semver places on numeric
version components and numeric prerelease identifiers. -/
def maxSafeInteger : Nat := 9007199254740991

/-- Digits-to-number accumulator for the parser. -/
def natOfDigits (l : List Char) : Nat :=
  l.foldl (fun n c => n * 10 + (c.toNat - 48)) 0

/-- Parse a numeric version component: nonempty, digits only, no leading
zero, at most `Number.MAX_SAFE_INTEGER` (the semver grammar and the
node-semver constructor checks). -/
def parseNumStrict (l : List Char) : Option Nat :=
  if l = [] then none
  else if ¬ l.all Char.isDigit then none
  else if 1 < l.length ∧ l.head? = some '0' then none
  else if maxSafeInteger < natOfDigits l then none
  else some (natOfDigits l)

/-- Characters the semver grammar allows inside prerelease and build
identifiers: ASCII alphanumerics and the hyphen. -/
def idChar (c : Char) : Bool :=
  c.isAlphanum || c = '-'

/-- Parse one prerelease identifier: all-digit identifiers must have no
leading zero and become numbers when below `MAX_SAFE_INTEGER` (node-semver
keeps larger ones as strings); other identifiers must be alphanumerics or
hyphens. -/
def parsePreId (l : List Char) : Option PreId :=
  if l = [] then none
  else if l.all Char.isDigit then
    if 1 < l.length ∧ l.head? = some '0' then none
    else if natOfDigits l < maxSafeInteger then some (.num (natOfDigits l))
    else some (.str (String.mk l))
  else if l.all idChar then some (.str (String.mk l))
  else none

/-- Parse one build identifier: nonempty, alphanumerics or hyphens. -/
def parseBuildId (l : List Char) : Option String :=
  if l = [] then none
  else if l.all idChar then some (String.mk l)
  else none

/-- JS `String.prototype.trim` whitespace test, restricted to the usual
ASCII whitespace. -/
def isJsWs (c : Char) : Bool :=
  c = ' ' ∨ c = '\t' ∨ c = '\n' ∨ c = '\r'

/-- node-semver `new SemVer(version)` on a plain string: trim whitespace,
allow one leading `v`, split off build metadata at the first `+`, split off
the prerelease at the first `-`, and require exactly three strict numeric
core components. Returns `none` exactly when the constructor throws, which
makes `semver.inc` return `null`. -/
def parseSemVer (s : String) : Option SemVer :=
  let l := ((s.data.dropWhile isJsWs).reverse.dropWhile isJsWs).reverse
  let l := match l with
    | 'v' :: rest => rest
    | other => other
  let (main, build) := breakAt '+' l
  let (core, pre) := breakAt '-' main
  match splitCharOn '.' core with
  | [ma, mi, pa] => do
    let major ← parseNumStrict ma
    let minor ← parseNumStrict mi
    let patch ← parseNumStrict pa
    let prerelease ← match pre with
      | none => some []
      | some p => (splitCharOn '.' p).mapM parsePreId
    let buildIds ← match build with
      | none => some ([] : List String)
      | some b => (splitCharOn '.' b).mapM parseBuildId
    some ⟨major, minor, patch, prerelease, buildIds⟩
  | _ => none

/-- Render one prerelease identifier back to text. -/
def renderPreId : PreId → String
  | .num n => Nat.repr n
  | .str s => s

/-- node-semver `SemVer.version` formatting: `major.minor.patch` with a
`-`-joined prerelease when present; build metadata is not included. -/
def render (v : SemVer) : String :=
  Nat.repr v.major ++ "." ++ Nat.repr v.minor ++ "." ++ Nat.repr v.patch ++
    (if v.prerelease.isEmpty then ""
     else "-" ++ String.intercalate "." (v.prerelease.map renderPreId))

/-- node-semver `inc(version, release)`: parse, increment, format; `null`
(here `none`) when the input does not parse. -/
def semverInc (s : String) (r : Release) : Option String :=
  (parseSemVer s).map (fun v => render (incVersion r v))

/-- node-semver `gt` on raw strings; `none` models the `TypeError` the
library throws on an unparsable version. -/
def semverGtStr (a b : String) : Option Bool :=
  match parseSemVer a, parseSemVer b with
  | some x, some y => some (semverGt x y)
  | _, _ => none

/-! ### The node-semver comparison is an oriented, transitive comparator

These laws are what make "greatest version" below a genuine maximum. -/

theorem strCmp_eq_compareOfLessAndEq (a b : String) :
    strCmp a b = compareOfLessAndEq a b := rfl

instance : Batteries.TransCmp strCmp := by
  rw [show strCmp = fun a b : String => compareOfLessAndEq a b from rfl]
  exact Batteries.TransCmp.compareOfLessAndEq
    (fun x => lt_irrefl x)
    (fun h₁ h₂ => lt_trans h₁ h₂)
    (fun h₁ h₂ => le_antisymm (le_of_not_lt h₂) (le_of_not_lt h₁))

instance : Batteries.OrientedCmp comparePreId where
  symm a b := by
    cases a <;> cases b <;>
      simp only [comparePreId, Ordering.swap] <;>
      first
      | rfl
      | exact Batteries.OrientedCmp.symm ..

instance : Batteries.TransCmp comparePreId where
  le_trans {x y z} h₁ h₂ := by
    cases x <;> cases y <;> cases z <;>
      simp only [comparePreId] at h₁ h₂ ⊢ <;>
      first
      | exact Batteries.TransCmp.le_trans h₁ h₂
      | simp_all

theorem comparePreId_symm (a b : PreId) :
    (comparePreId a b).swap = comparePreId b a :=
  Batteries.OrientedCmp.symm a b

theorem comparePreRest_symm :
    ∀ (a b : List PreId), (comparePreRest a b).swap = comparePreRest b a
  | [], [] => rfl
  | [], _ :: _ => rfl
  | _ :: _, [] => rfl
  | a :: as, b :: bs => by
    simp only [comparePreRest, Ordering.swap_then]
    rw [comparePreId_symm a b, comparePreRest_symm as bs]

instance : Batteries.OrientedCmp comparePreRest :=
  ⟨comparePreRest_symm⟩

theorem comparePreRest_le_trans :
    ∀ {a b c : List PreId}, comparePreRest a b ≠ .gt → comparePreRest b c ≠ .gt →
      comparePreRest a c ≠ .gt
  | [], _, [], _, _ => by simp [comparePreRest]
  | [], _, _ :: _, _, _ => by simp [comparePreRest]
  | _ :: _, [], _, h₁, _ => by simp [comparePreRest] at h₁
  | _ :: _, _ :: _, [], _, h₂ => by simp [comparePreRest] at h₂
  | a :: as, b :: bs, c :: cs, h₁, h₂ => by
    simp only [comparePreRest, ne_eq, Ordering.then_eq_gt, not_or, not_and] at h₁ h₂ ⊢
    refine ⟨Batteries.TransCmp.le_trans h₁.1 h₂.1, fun e₁ e₂ => ?_⟩
    match ab : comparePreId a b with
    | .gt => exact h₁.1 ab
    | .eq =>
      exact comparePreRest_le_trans (h₁.2 ab)
        (h₂.2 (Batteries.TransCmp.cmp_congr_left ab ▸ e₁)) e₂
    | .lt =>
      exact h₂.1 <| (Batteries.OrientedCmp.cmp_eq_gt).2
        (Batteries.TransCmp.cmp_congr_left e₁ ▸ ab)

instance : Batteries.TransCmp comparePreRest :=
  ⟨comparePreRest_le_trans⟩

theorem comparePre_symm :
    ∀ (a b : List PreId), (comparePre a b).swap = comparePre b a
  | [], [] => rfl
  | [], _ :: _ => rfl
  | _ :: _, [] => rfl
  | _ :: _, _ :: _ => comparePreRest_symm ..

instance : Batteries.OrientedCmp comparePre :=
  ⟨comparePre_symm⟩

theorem comparePre_le_trans :
    ∀ {a b c : List PreId}, comparePre a b ≠ .gt → comparePre b c ≠ .gt →
      comparePre a c ≠ .gt
  | [], _, [], _, _ => by simp [comparePre]
  | [], _ :: _, _, h₁, _ => by simp [comparePre] at h₁
  | [], [], _ :: _, _, h₂ => by simp [comparePre] at h₂
  | _ :: _, _, [], _, _ => by simp [comparePre]
  | _ :: _, [], _ :: _, _, h₂ => by simp [comparePre] at h₂
  | _ :: _, _ :: _, _ :: _, h₁, h₂ => comparePreRest_le_trans h₁ h₂

instance : Batteries.TransCmp comparePre :=
  ⟨comparePre_le_trans⟩

instance : Batteries.OrientedCmp preFieldCmp :=
  ⟨fun a b => comparePre_symm a.prerelease b.prerelease⟩

instance : Batteries.TransCmp preFieldCmp :=
  ⟨fun h₁ h₂ => comparePre_le_trans h₁ h₂⟩

instance instTransCmpSemverCmp : Batteries.TransCmp semverCmp := by
  unfold semverCmp
  infer_instance

theorem semverCmp_refl (v : SemVer) : semverCmp v v = .eq :=
  Batteries.OrientedCmp.cmp_refl

theorem semverCmp_le_trans {a b c : SemVer}
    (h₁ : semverCmp a b ≠ .gt) (h₂ : semverCmp b c ≠ .gt) : semverCmp a c ≠ .gt :=
  Batteries.TransCmp.le_trans h₁ h₂

theorem semverCmp_gt_asymm {a b : SemVer} (h : semverCmp a b = .gt) :
    semverCmp b a ≠ .gt :=
  Batteries.TransCmp.gt_asymm h

theorem semverGt_eq_true {a b : SemVer} (h : semverGt a b = true) :
    semverCmp a b = .gt := by
  unfold semverGt at h
  cases hc : semverCmp a b
  · rw [hc] at h
    exact absurd h (by decide)
  · rw [hc] at h
    exact absurd h (by decide)
  · rfl

theorem semverGt_eq_false {a b : SemVer} (h : semverGt a b = false) :
    semverCmp a b ≠ .gt := by
  unfold semverGt at h
  intro hc
  rw [hc] at h
  exact absurd h (by decide)

/-! ### Commit analysis (`Publish.analyzeCommitHistory`, `Publish.bumpVersion`) -/

/-- One entry of a `simple-git` log: `message` is the subject line, `body`
the remainder of the commit message. -/
structure Commit where
  message : String
  body : String
deriving DecidableEq, Repr

/-- The record `Publish.analyzeCommitHistory` returns (interface
`BumpVersion`): one flag per marker found anywhere in the history. -/
structure BumpVersion where
  major : Bool
  minor : Bool
  patch : Bool
deriving DecidableEq, Repr

/-- Is `needle` a contiguous sublist of the argument? -/
def isInfixList (needle : List Char) : List Char → Bool
  | [] => needle.isEmpty
  | c :: cs => needle.isPrefixOf (c :: cs) || isInfixList needle cs

/-- JS `String.prototype.includes`: substring containment. -/
def includesStr (s sub : String) : Bool :=
  isInfixList sub.data s.data

def breakingMarker : String := "BREAKING CHANGE:"

def featMarker : String := "feat:"

def fixMarker : String := "fix:"

/-- Translation of `Publish.analyzeCommitHistory`: scan every commit's subject and body
for the three markers, independently. -/
def analyzeCommitHistory (history : List Commit) : BumpVersion where
  major := history.any fun c =>
    includesStr c.message breakingMarker || includesStr c.body breakingMarker
  minor := history.any fun c =>
    includesStr c.message featMarker || includesStr c.body featMarker
  patch := history.any fun c =>
    includesStr c.message fixMarker || includesStr c.body fixMarker

/-- The four bump outcomes the spec calls `BumpDecision`. -/
inductive Bump where
  | major
  | minor
  | patch
  | none
deriving DecidableEq, Repr

/-- The decision implicit in `Publish.bumpVersion`'s if/else-if chain:
major wins over minor, minor over patch, else no bump. -/
def bumpDecision (ca : BumpVersion) : Bump :=
  if ca.major then .major else if ca.minor then .minor else if ca.patch then .patch else .none

/-! ### Manifests, flags, and the publish pipeline (`Publish.runIsolated`,
`Publish.runMonorepo`, `Publish.findGreatestRelease`) -/

/-- The reserved `aetheria` object of a package manifest. -/
structure AetheriaCfg where
  reference_commit : Option String
  assets : List String
deriving DecidableEq, Repr

/-- The slice of a `package.json` the pipeline reads and writes. `none`
models an absent field (JS `undefined`); `semver.inc` returning `null` is
also stored as `none` in `version`. -/
structure Pjson where
  name : Option String
  version : Option String
  aetheria : Option AetheriaCfg
deriving DecidableEq, Repr

/-- JS truthiness of an optional string field: `undefined` and the empty
string are falsy, every other string is truthy. -/
def truthyS : Option String → Bool
  | Option.none => false
  | Option.some s => s ≠ ""

/-- JS string interpolation of a possibly-undefined value. -/
def showOptVersion : Option String → String
  | Option.none => "undefined"
  | Option.some s => s

/-- The CLI flags of the `Publish` command that the pipeline branches on
(defaults: `build`, `publish` and `version_bump` are true; `continue`,
here `continue_flag`, and `isolated` are false). -/
structure Flags where
  build : Bool
  publish : Bool
  version_bump : Bool
  isolated : Bool
  continue_flag : Bool
  nx_target : Option String
deriving DecidableEq, Repr

/-- The flag defaults declared by the `Publish` command. -/
def defaultFlags : Flags :=
  ⟨true, true, true, false, false, Option.none⟩

/-- The `semver.inc` call applied to a manifest's `version` field, which may be
absent: `inc(undefined, ...)` is `null`, and an unparsable string also
yields `null`. -/
def semverIncOpt (v : Option String) (r : Release) : Option String :=
  match v with
  | Option.none => Option.none
  | Option.some s => semverInc s r

/-- The version-mutation tail of `Publish.bumpVersion` (the if/else-if
chain over the commit analysis, each branch assigning
`pjson.version = inc(pjson.version, kind)`). -/
def applyBump (pjson : Pjson) (ca : BumpVersion) : Pjson :=
  if ca.major then { pjson with version := semverIncOpt pjson.version .major }
  else if ca.minor then { pjson with version := semverIncOpt pjson.version .minor }
  else if ca.patch then { pjson with version := semverIncOpt pjson.version .patch }
  else pjson

/-- Translation of `Publish.bumpVersion`: in isolated mode a disabled `version_bump` flag
or a disabled `publish` flag skips the bump with a warning; in monorepo
mode a disabled `version_bump` flag only logs a warning and the bump runs
anyway. Returns the updated manifest and the warnings logged. -/
def bumpVersionW (fl : Flags) (pjson : Pjson) (ca : BumpVersion) : Pjson × List String :=
  if fl.isolated then
    if ¬ fl.version_bump then
      (pjson, ["No version bump, current version is v" ++ showOptVersion pjson.version])
    else if ¬ fl.publish then
      (pjson, ["Skipping version bump"])
    else (applyBump pjson ca, [])
  else
    if ¬ fl.version_bump then
      (applyBump pjson ca, ["Version bump cannot be disabled in monorepo mode, bumping versions"])
    else (applyBump pjson ca, [])

/-- The reference-commit half of a `GreatestRelease`: a commit hash and the
number of commits between it and HEAD. -/
structure RefCommit where
  total : Nat
  commit : String
deriving DecidableEq, Repr

/-- The `GreatestRelease` record `Publish.findGreatestRelease` produces. -/
structure GreatestRelease where
  greatest_version : String
  reference_commit : RefCommit
deriving DecidableEq, Repr

/-- The `PublishIsolatedModeConfigOverride` record monorepo fan-out passes
to `Publish.runIsolated`. -/
structure Override where
  target : String
  soft_error : Bool
  build : Bool
  omit_continue_question : Bool
  latest_commit : String
  greatest_release : GreatestRelease
  commit_history : List Commit
deriving DecidableEq, Repr

/-- The external collaborators of one run: the git log reader (`latest`
is the newest commit hash, `history r` the log from reference `r` to
HEAD), the interactive confirm answer, and the build subprocess's
success. -/
structure GitEnv where
  latest : Option String
  history : String → List Commit
  confirm : Bool
  build_ok : Bool

/-- The observable I/O steps of one pipeline run, in program order. The
build runs concurrently between `buildTriggered` and `buildCompleted`. -/
inductive Ev where
  | buildTriggered
  | latestFetched
  | historyFetched
  | buildCompleted
  | manifestWritten
  | assetsStaged
  | published
deriving DecidableEq, Repr

/-- How a run can stop early: `fatal` models `this.error` (throw,
non-zero process exit), `softSkip` the spec's soft-error downgrade, and
`exitCode` models `this.exit(1)` after a declined confirmation. -/
inductive PubErr where
  | fatal (msg : String)
  | softSkip (msg : String)
  | exitCode (code : Nat)
deriving DecidableEq, Repr

/-- Modelled from the spec: `BaseCommand.safeError` is called by
`Publish.verifyPreconditions` under the `soft_error` override but is not
among the provided sources; per the spec's soft-error semantics it demotes
the otherwise-fatal failure to a logged warning plus a skip of the rest of
that sibling's pipeline, without terminating the batch. -/
def safeErrorModel (msg : String) : PubErr :=
  .softSkip msg

/-- The outcome of one `runIsolated` call: the I/O steps performed in
order, the error that stopped the run (if any), and the manifest content
written by `updatePackageJSON` (if reached). -/
structure RunResult where
  events : List Ev
  err : Option PubErr
  written : Option (Pjson × AetheriaCfg)
deriving DecidableEq, Repr

/-- Translation of `Publish.verifyPreconditions`: a falsy `name` or `version` raises
`this.error` (fatal), or `safeError` under the soft-error override. -/
def verifyPreconditions (pjson : Pjson) (soft_error : Bool) : Option PubErr :=
  if ¬ truthyS pjson.name then
    some (if soft_error then safeErrorModel "No name specified in package.json"
          else .fatal "No name specified in package.json")
  else if ¬ truthyS pjson.version then
    some (if soft_error then safeErrorModel "No version specified in package.json"
          else .fatal "No version specified in package.json")
  else none

/-- The resolution `override?.latest_commit ?? await this.getLatestCommitOrFail()`: the
override's commit when present, else the repository's newest commit
(fetching it is an observable step), else a fatal error. -/
def latestOf (g : GitEnv) (ov : Option Override) : Except PubErr (String × List Ev) :=
  match ov with
  | some o => .ok (o.latest_commit, [])
  | Option.none =>
    match g.latest with
    | some h => .ok (h, [.latestFetched])
    | Option.none => .error (.fatal "No commits found")

/-- The reference commit `runIsolated` resolves when no override supplies
one: the manifest's stored `aetheria.reference_commit`, else the latest
commit's hash. -/
def resolvedRef (pjson : Pjson) (latest : String) : String :=
  ((pjson.aetheria.getD ⟨Option.none, []⟩).reference_commit).getD latest

/-- Translation of `Publish.runIsolated`, one package's pipeline: read the manifest,
verify preconditions (soft or fatal), trigger the build (without awaiting
it), resolve the latest and reference commits, fetch the commit history
unless an override supplies it, gate on zero pending commits (interactive
confirm unless omitted), substitute the reconciled greatest version,
bump, await the build, write the manifest, stage assets (unless in nx
mode), and publish (unless disabled). -/
def runIsolated (fl : Flags) (g : GitEnv) (pjson : Pjson) (ov : Option Override) : RunResult :=
  let config := pjson.aetheria.getD ⟨Option.none, []⟩
  match verifyPreconditions pjson ((ov.map Override.soft_error).getD false) with
  | some e => ⟨[], some e, Option.none⟩
  | Option.none =>
    let doBuild := (ov.map Override.build).getD fl.build
    let ev₀ : List Ev := if doBuild then [.buildTriggered] else []
    match latestOf g ov with
    | .error e => ⟨ev₀, some e, Option.none⟩
    | .ok (latest, ev₁) =>
      let ref₀ := ((ov.map fun o => o.greatest_release.reference_commit.commit) <|>
        config.reference_commit).getD latest
      let histPair : List Commit × List Ev :=
        match ov with
        | some o => (o.commit_history, [])
        | Option.none => (g.history ref₀, [.historyFetched])
      let history := histPair.1
      let evs := ev₀ ++ ev₁ ++ histPair.2
      let omitQ := (ov.map Override.omit_continue_question).getD false
      if ¬ omitQ ∧ history.length = 0 ∧ ¬ fl.continue_flag ∧ ¬ g.confirm then
        ⟨evs, some (.exitCode 1), Option.none⟩
      else
        let pjson₁ : Pjson :=
          { pjson with version := (ov.map fun o => some o.greatest_release.greatest_version).getD pjson.version }
        let config₁ : AetheriaCfg := { config with reference_commit := some latest }
        let pjson₂ := (bumpVersionW fl pjson₁ (analyzeCommitHistory history)).1
        if doBuild ∧ ¬ g.build_ok then
          ⟨evs, some (.fatal "Build failed"), Option.none⟩
        else
          ⟨evs ++ (if doBuild then [.buildCompleted] else []) ++ [.manifestWritten] ++
              (if fl.nx_target.isNone then [.assetsStaged] else []) ++
              (if fl.publish then [.published] else []),
            Option.none, some (pjson₂, config₁)⟩

/-- The expression `pjson?.version ?? "0.0.0"`: a sibling's stored version string with
the default for a missing one. -/
def sibVersion (p : Pjson) : String :=
  p.version.getD "0.0.0"

/-- The expression `pjson?.aetheria?.reference_commit ?? "HEAD"`: a sibling's stored
reference commit with the default. -/
def sibRef (p : Pjson) : String :=
  (p.aetheria.bind AetheriaCfg.reference_commit).getD "HEAD"

/-- One step of the `versions.reduce` in `Publish.findGreatestRelease`:
`gt(greatest, current) ? greatest : current` over raw strings; `none`
models the `TypeError` semver throws on an unparsable version. -/
def gvStep (g c : String) : Option String :=
  (semverGtStr g c).map fun t => if t then g else c

/-- The whole `versions.reduce(..., "0.0.0")` of
`Publish.findGreatestRelease`. -/
def greatestVersionFold (versions : List String) : Option String :=
  versions.foldlM gvStep "0.0.0"

/-- One step of the `commits.reduce` in `Publish.findGreatestRelease`:
`current.total > greatest.total ? current : greatest`. -/
def refStep (gr cur : RefCommit) : RefCommit :=
  if cur.total > gr.total then cur else gr

/-- The commit record `findGreatestRelease` builds per sibling: the
number of commits between its stored reference commit (default `HEAD`)
and HEAD, paired with that reference commit. -/
def sibCommits (g : GitEnv) (pjsons : List Pjson) : List RefCommit :=
  pjsons.map fun p => RefCommit.mk (g.history (sibRef p)).length (sibRef p)

/-- Translation of `Publish.findGreatestRelease`: per sibling take the stored version
(default `0.0.0`) and the commit count from its stored reference commit
(default `HEAD`) to HEAD, then reduce the versions by `semver.gt` from
`"0.0.0"` and the commit records by strict count comparison from
`{total: 0, commit: "HEAD"}`. -/
def findGreatestRelease (g : GitEnv) (pjsons : List Pjson) : Option GreatestRelease :=
  let versions := pjsons.map sibVersion
  let commits := sibCommits g pjsons
  (greatestVersionFold versions).map fun gv =>
    { greatest_version := gv
      reference_commit := commits.foldl refStep ⟨0, "HEAD"⟩ }

/-- The outcome of `Publish.runMonorepo`: the batch-level I/O steps, the
error that stopped the batch (if any), and each sibling's pipeline
result. -/
structure MonoResult where
  events : List Ev
  err : Option PubErr
  sib_results : List RunResult
deriving DecidableEq, Repr

/-- Translation of `Publish.runMonorepo`: fetch the latest commit and reconcile the
greatest release, build all libraries (awaited), fetch the commit history
from the reconciled reference commit, gate once on zero pending commits,
then fan out one prepared isolated run per library with `soft_error`,
`build: false` and `omit_continue_question` set. -/
def runMonorepo (fl : Flags) (g : GitEnv) (libs : List (String × Pjson)) : MonoResult :=
  match g.latest with
  | Option.none => ⟨[.latestFetched], some (.fatal "No commits found"), []⟩
  | some latest =>
    match findGreatestRelease g (libs.map Prod.snd) with
    | Option.none => ⟨[.latestFetched], some (.fatal "semver TypeError"), []⟩
    | some greatest =>
      if ¬ g.build_ok then
        ⟨[.latestFetched, .buildTriggered], some (.fatal "Build failed"), []⟩
      else
        let evs : List Ev := [.latestFetched, .buildTriggered, .buildCompleted, .historyFetched]
        let history := g.history greatest.reference_commit.commit
        if history.length = 0 ∧ ¬ fl.continue_flag ∧ ¬ g.confirm then
          ⟨evs, some (.exitCode 1), []⟩
        else
          ⟨evs, Option.none,
            libs.map fun lp =>
              runIsolated fl g lp.2 (some
                { target := lp.1
                  soft_error := true
                  build := false
                  omit_continue_question := true
                  latest_commit := latest
                  greatest_release := greatest
                  commit_history := history })⟩

/-! ### Dependency-cycle validation (`MapDependencies`) -/

/-- The outcome of a `MapDependencies.run`: whether the target manifest
was rewritten, the fatal error (if any), and the warnings logged by the
cycle check. -/
structure MDResult where
  written : Bool
  err : Option String
  warnings : List String
deriving DecidableEq, Repr

/-- Translation of `MapDependencies.verifyCircularDependency`: a self-dependency is
fatal; without a tsconfig the local (length-2) check is skipped with a
warning; otherwise each locally path-mapped dependency that is in the
accumulated set has its manifest's dependency names checked for the
target's name. `tscfg` maps a local dependency name to its manifest's
dependency names (`none` for a manifest without a `dependencies`
field). -/
def verifyCircularDependency (tname : String) (deps : List String)
    (tscfg : Option (List (String × Option (List String)))) :
    Option String × List String :=
  if deps.contains tname then
    (some ("Circular dependency detected, " ++ tname ++ " depends on itself"), [])
  else
    match tscfg with
    | Option.none =>
      (Option.none,
        ["No tsconfig.json provided, skipping circular dependency check for local dependencies"])
    | some paths =>
      match paths.find? (fun pr => deps.contains pr.1 && (pr.2.getD []).contains tname) with
      | some pr =>
        (some ("Circular dependency detected, " ++ tname ++ " depends on " ++ pr.1 ++
          " which depends on " ++ tname), [])
      | Option.none => (Option.none, [])

/-- The tail of `MapDependencies.run`: the cycle validation runs first and
a fatal error prevents the manifest write; otherwise the manifest is
rewritten. -/
def mapDependenciesRun (tname : String) (deps : List String)
    (tscfg : Option (List (String × Option (List String)))) : MDResult :=
  match verifyCircularDependency tname deps tscfg with
  | (some e, ws) => ⟨false, some e, ws⟩
  | (Option.none, ws) => ⟨true, Option.none, ws⟩

/-- Does `a` occur strictly before some later occurrence of `b`? -/
def occursBefore (a b : Ev) : List Ev → Bool
  | [] => false
  | e :: es => (e == a && es.contains b) || occursBefore a b es

/-! ### Characterization of the two reductions in `findGreatestRelease` -/

/-- The maximum of the sibling commit counts (0 for an empty batch). -/
def totalsMax (l : List RefCommit) : Nat :=
  l.foldr (fun c m => max c.total m) 0

/-- The reference-commit choice described by the spec, written from its
words: the first sibling record attaining the maximal commit count — and,
when every count is zero, the reduction's initial accumulator
`{total: 0, commit: "HEAD"}`. -/
def specReferenceChoice (commits : List RefCommit) : RefCommit :=
  if totalsMax commits = 0 then ⟨0, "HEAD"⟩
  else (commits.find? fun c => c.total == totalsMax commits).getD ⟨0, "HEAD"⟩

theorem totalsMax_attained :
    ∀ (l : List RefCommit), totalsMax l = 0 ∨ ∃ c ∈ l, c.total = totalsMax l
  | [] => Or.inl rfl
  | c :: cs => by
    rcases le_or_lt (totalsMax cs) c.total with h | h
    · refine Or.inr ⟨c, List.mem_cons_self c cs, ?_⟩
      simp only [totalsMax, List.foldr_cons] at h ⊢
      omega
    · rcases totalsMax_attained cs with h0 | ⟨x, hx, hxt⟩
      · simp only [totalsMax, List.foldr_cons] at h h0 ⊢
        omega
      · refine Or.inr ⟨x, List.mem_cons_of_mem c hx, ?_⟩
        simp only [totalsMax, List.foldr_cons] at h hxt ⊢
        omega

/-- The `commits.reduce` of `findGreatestRelease`, fully characterized:
starting from `acc`, the fold returns `acc` when no count strictly exceeds
`acc.total`, and otherwise the first record attaining the maximal count. -/
theorem refFold_spec :
    ∀ (l : List RefCommit) (acc : RefCommit),
      l.foldl refStep acc =
        if acc.total < totalsMax l then (l.find? fun c => c.total == totalsMax l).getD acc
        else acc
  | [], acc => by simp [totalsMax]
  | c :: cs, acc => by
    have hM : totalsMax (c :: cs) = max c.total (totalsMax cs) := rfl
    rw [List.foldl_cons, refFold_spec cs (refStep acc c)]
    by_cases hac : acc.total < c.total
    · have hstep : refStep acc c = c := by simp [refStep, hac]
      rw [hstep]
      rcases le_or_lt (totalsMax cs) c.total with h1 | h1
      · rw [if_neg (by omega), hM, Nat.max_eq_left h1, if_pos (by omega)]
        rw [List.find?_cons_of_pos _ (by simp)]
        rfl
      · rw [if_pos h1, hM, Nat.max_eq_right (le_of_lt h1), if_pos (by omega)]
        rw [List.find?_cons_of_neg _ (by simp; omega)]
        rcases totalsMax_attained cs with h0 | ⟨x, hx, hxt⟩
        · omega
        · have : (cs.find? fun d => d.total == totalsMax cs).isSome :=
            List.find?_isSome.mpr ⟨x, hx, by simp [hxt]⟩
          rcases Option.isSome_iff_exists.mp this with ⟨y, hy⟩
          rw [hy]
          rfl
    · have hstep : refStep acc c = acc := by simp [refStep]; omega
      rw [hstep]
      rcases lt_or_le acc.total (totalsMax cs) with h1 | h1
      · have hcM : c.total < totalsMax cs := by omega
        rw [if_pos h1, hM, Nat.max_eq_right (le_of_lt hcM), if_pos h1]
        rw [List.find?_cons_of_neg _ (by simp; omega)]
      · rw [if_neg (by omega), hM, if_neg (by simp; omega)]

/-- The `versions.reduce` of `findGreatestRelease`, characterized: when
the fold succeeds (no semver `TypeError`), the result parses, is an upper
bound by semver precedence of the accumulator and of every parsable entry,
and is either the accumulator or one of the entries. -/
theorem gvFold_spec :
    ∀ (l : List String) (acc : String) (va : SemVer),
      parseSemVer acc = some va →
      ∀ r, List.foldlM gvStep acc l = some r →
        ∃ vr, parseSemVer r = some vr ∧
          semverCmp va vr ≠ .gt ∧
          (∀ v ∈ l, ∀ vv, parseSemVer v = some vv → semverCmp vv vr ≠ .gt) ∧
          r ∈ acc :: l
  | [], acc, va, hacc, r, hr => by
    simp only [List.foldlM_nil, Option.pure_def, Option.some.injEq] at hr
    subst hr
    exact ⟨va, hacc, by simp [semverCmp_refl], by simp, List.mem_cons_self _ _⟩
  | c :: cs, acc, va, hacc, r, hr => by
    simp only [List.foldlM_cons, Option.bind_eq_bind] at hr
    rcases Option.bind_eq_some.mp hr with ⟨acc', hstep, hrest⟩
    rcases hvc : parseSemVer c with _ | vc
    · rw [gvStep, semverGtStr, hacc, hvc] at hstep
      simp at hstep
    · rw [gvStep, semverGtStr, hacc, hvc] at hstep
      simp only [Option.map_some', Option.some.injEq] at hstep
      by_cases hgt : semverGt va vc = true
      · rw [if_pos hgt] at hstep
        subst hstep
        obtain ⟨vr, hvr, hle, hall, hmem⟩ := gvFold_spec cs acc va hacc r hrest
        refine ⟨vr, hvr, hle, ?_, ?_⟩
        · intro v hv vv hvv
          rcases List.mem_cons.mp hv with rfl | hv
          · have hvceq : vv = vc := by rw [hvv] at hvc; exact Option.some.inj hvc
            subst hvceq
            have hlt : semverCmp vv va = .lt :=
              Batteries.OrientedCmp.cmp_eq_gt.mp (semverGt_eq_true hgt)
            exact semverCmp_le_trans (by simp [hlt]) hle
          · exact hall v hv vv hvv
        · rcases List.mem_cons.mp hmem with rfl | hmem
          · exact List.mem_cons_self _ _
          · exact List.mem_cons_of_mem _ (List.mem_cons_of_mem _ hmem)
      · rw [if_neg hgt] at hstep
        subst hstep
        obtain ⟨vr, hvr, hle, hall, hmem⟩ := gvFold_spec cs c vc hvc r hrest
        have hacc_le : semverCmp va vr ≠ .gt :=
          semverCmp_le_trans (semverGt_eq_false (Bool.of_not_eq_true hgt)) hle
        refine ⟨vr, hvr, hacc_le, ?_, ?_⟩
        · intro v hv vv hvv
          rcases List.mem_cons.mp hv with rfl | hv
          · have hvceq : vv = vc := by rw [hvv] at hvc; exact Option.some.inj hvc
            subst hvceq
            exact hle
          · exact hall v hv vv hvv
        · rcases List.mem_cons.mp hmem with rfl | hmem
          · exact List.mem_cons_of_mem _ (List.mem_cons_self _ _)
          · exact List.mem_cons_of_mem _ (List.mem_cons_of_mem _ hmem)

theorem semverGt_eq_false_of_le {a b : SemVer} (h : semverCmp a b ≠ .gt) :
    semverGt a b = false := by
  unfold semverGt
  cases hc : semverCmp a b
  · rfl
  · rfl
  · exact absurd hc h

/-! ### Concrete fixtures used by counterexamples and witnesses -/

/-- A git environment with a single commit and empty histories. -/
def exGitNil : GitEnv :=
  ⟨some "h1", fun _ => [], true, true⟩

/-- A git environment whose every history holds one `fix:` commit. -/
def exGitFix : GitEnv :=
  ⟨some "h1", fun _ => [⟨"fix: bug", ""⟩], true, true⟩

/-- A git environment with reference `a3` three and reference `b5` five
commits behind HEAD. -/
def exGitAB : GitEnv :=
  ⟨some "h1",
    fun r =>
      if r = "a3" then [⟨"c1", ""⟩, ⟨"c2", ""⟩, ⟨"c3", ""⟩]
      else if r = "b5" then [⟨"d1", ""⟩, ⟨"d2", ""⟩, ⟨"d3", ""⟩, ⟨"d4", ""⟩, ⟨"d5", ""⟩]
      else [],
    true, true⟩

/-- Sibling A of the spec's reconciliation example: version `1.2.3`,
reference commit `a3`. -/
def exSibA : Pjson :=
  ⟨some "a", some "1.2.3", some ⟨some "a3", []⟩⟩

/-- Sibling B of the spec's reconciliation example: version `1.2.4`,
reference commit `b5`. -/
def exSibB : Pjson :=
  ⟨some "b", some "1.2.4", some ⟨some "b5", []⟩⟩

/-- A sibling whose stored version differs from another's only in build
metadata. -/
def exTieA : Pjson :=
  ⟨some "a", some "1.0.0+a", Option.none⟩

/-- The second build-metadata sibling. -/
def exTieB : Pjson :=
  ⟨some "b", some "1.0.0+b", Option.none⟩

/-- A sibling whose stored version sorts below the reducer's `0.0.0`
default. -/
def exPreLow : Pjson :=
  ⟨some "a", some "0.0.0-alpha", Option.none⟩

/-- A sibling with a stored reference commit `abc` that is zero commits
behind HEAD. -/
def exStoredRef : Pjson :=
  ⟨some "a", some "1.0.0", some ⟨some "abc", []⟩⟩

/-- A plain valid manifest at version `1.0.0`. -/
def exPj100 : Pjson :=
  ⟨some "pkg", some "1.0.0", Option.none⟩

/-- A manifest whose version string is not a semantic version. -/
def exPjInvalid : Pjson :=
  ⟨some "pkg", some "not-a-version", Option.none⟩

/-- The default flags with isolated mode selected. -/
def flagsIso : Flags :=
  { defaultFlags with isolated := true }

/-- A monorepo-style override carrying baseline `2.0.0` and one `fix:`
commit of history. -/
def exOvBaseline : Override :=
  ⟨"t", true, false, true, "h1", ⟨"2.0.0", ⟨1, "c"⟩⟩, [⟨"fix: x", ""⟩]⟩

/-! ## The claims -/

/-- C5: a commit history containing the `BREAKING CHANGE:` marker in some
subject or body always yields a major bump decision, whatever other
markers occur and in whatever order; otherwise a `feat:` marker yields
minor, otherwise a `fix:` marker yields patch, otherwise none; and the
analysis is invariant under permutation of the history. -/
theorem analyzeCommitHistory_precedence (history : List Commit) :
    ((∃ c ∈ history,
        (includesStr c.message breakingMarker || includesStr c.body breakingMarker) = true) →
      bumpDecision (analyzeCommitHistory history) = .major)
    ∧ ((∀ c ∈ history,
          (includesStr c.message breakingMarker || includesStr c.body breakingMarker) = false) →
        (∃ c ∈ history, (includesStr c.message featMarker || includesStr c.body featMarker) = true) →
        bumpDecision (analyzeCommitHistory history) = .minor)
    ∧ ((∀ c ∈ history,
          (includesStr c.message breakingMarker || includesStr c.body breakingMarker) = false) →
        (∀ c ∈ history, (includesStr c.message featMarker || includesStr c.body featMarker) = false) →
        (∃ c ∈ history, (includesStr c.message fixMarker || includesStr c.body fixMarker) = true) →
        bumpDecision (analyzeCommitHistory history) = .patch)
    ∧ ((∀ c ∈ history,
          (includesStr c.message breakingMarker || includesStr c.body breakingMarker) = false) →
        (∀ c ∈ history, (includesStr c.message featMarker || includesStr c.body featMarker) = false) →
        (∀ c ∈ history, (includesStr c.message fixMarker || includesStr c.body fixMarker) = false) →
        bumpDecision (analyzeCommitHistory history) = .none)
    ∧ (∀ history₂, history.Perm history₂ →
        analyzeCommitHistory history = analyzeCommitHistory history₂) := by
  have hany : ∀ (l : List Commit) (f : Commit → Bool),
      (∃ c ∈ l, f c = true) → l.any f = true :=
    fun l f ⟨c, hc, hf⟩ => List.any_eq_true.mpr ⟨c, hc, hf⟩
  have hnone : ∀ (l : List Commit) (f : Commit → Bool),
      (∀ c ∈ l, f c = false) → l.any f = false :=
    fun l f h => List.any_eq_false.mpr fun c hc => by simp [h c hc]
  refine ⟨fun h => ?_, fun h₁ h₂ => ?_, fun h₁ h₂ h₃ => ?_, fun h₁ h₂ h₃ => ?_, fun l₂ hp => ?_⟩
  · simp [bumpDecision, analyzeCommitHistory, hany _ _ h]
  · simp [bumpDecision, analyzeCommitHistory, hnone _ _ h₁, hany _ _ h₂]
  · simp [bumpDecision, analyzeCommitHistory, hnone _ _ h₁, hnone _ _ h₂, hany _ _ h₃]
  · simp [bumpDecision, analyzeCommitHistory, hnone _ _ h₁, hnone _ _ h₂, hnone _ _ h₃]
  · have hpermany : ∀ (f : Commit → Bool), history.any f = l₂.any f := by
      intro f
      cases hb : l₂.any f
      · simp only [List.any_eq_false] at hb ⊢
        exact fun c hc => hb c (hp.mem_iff.mp hc)
      · simp only [List.any_eq_true] at hb ⊢
        obtain ⟨c, hc, hfc⟩ := hb
        exact ⟨c, hp.mem_iff.mpr hc, hfc⟩
    simp [analyzeCommitHistory, hpermany]

/-- C5 witness: a history with a `fix:` commit and a second commit whose
body carries a breaking marker is decided major, also after reversal. -/
theorem analyzeCommitHistory_precedence_witness :
    bumpDecision (analyzeCommitHistory
      [⟨"fix: x", ""⟩, ⟨"feat: y", "BREAKING CHANGE: z"⟩]) = .major
    ∧ analyzeCommitHistory [⟨"fix: x", ""⟩, ⟨"feat: y", "BREAKING CHANGE: z"⟩] =
        analyzeCommitHistory [⟨"feat: y", "BREAKING CHANGE: z"⟩, ⟨"fix: x", ""⟩] := by
  constructor
  · exact (analyzeCommitHistory_precedence _).1
      ⟨⟨"feat: y", "BREAKING CHANGE: z"⟩, by decide, by decide⟩
  · exact (analyzeCommitHistory_precedence _).2.2.2.2 _
      (List.Perm.swap _ _ _)

/-- C10: in isolated mode a disabled publish flag skips the version bump
(the manifest's version is untouched) even when version bumping is
enabled; in monorepo mode a disabled version-bump flag has no effect on
the bump, which is applied anyway while a warning is logged. -/
theorem bumpVersion_flag_semantics (fl : Flags) (p : Pjson) (ca : BumpVersion) :
    (fl.isolated = true → fl.publish = false → fl.version_bump = true →
      bumpVersionW fl p ca = (p, ["Skipping version bump"]))
    ∧ (fl.isolated = false →
        (bumpVersionW fl p ca).1 = applyBump p ca
        ∧ (fl.version_bump = false →
            (bumpVersionW fl p ca).2 =
              ["Version bump cannot be disabled in monorepo mode, bumping versions"])) := by
  constructor
  · intro hiso hpub hvb
    simp [bumpVersionW, hiso, hpub, hvb]
  · intro hiso
    constructor
    · by_cases hvb : fl.version_bump <;> simp [bumpVersionW, hiso, hvb]
    · intro hvb
      simp [bumpVersionW, hiso, hvb]

/-- C10 witness: at concrete flags, a no-publish isolated run keeps
version `1.0.0` despite a pending patch, and a monorepo run with
`version_bump` disabled still bumps to `1.0.1` and warns. -/
theorem bumpVersion_flag_semantics_witness :
    bumpVersionW { defaultFlags with isolated := true, publish := false } exPj100 ⟨false, false, true⟩ =
      (exPj100, ["Skipping version bump"])
    ∧ (bumpVersionW { defaultFlags with version_bump := false } exPj100 ⟨false, false, true⟩).1 =
        applyBump exPj100 ⟨false, false, true⟩
    ∧ applyBump exPj100 ⟨false, false, true⟩ = ⟨some "pkg", some "1.0.1", Option.none⟩ := by
  refine ⟨(bumpVersion_flag_semantics _ _ _).1 rfl rfl rfl,
    ((bumpVersion_flag_semantics _ _ _).2 rfl).1, by decide⟩

/-- C8: the cycle validation, which runs before the manifest write, is
fatal on a self-dependency and on a mutual (length-2) dependency through a
locally path-mapped sibling, does not detect a concrete 3-node cycle, and
without a tsconfig skips the length-2 check with a warning, running only
the self-check. -/
theorem verifyCircularDependency_spec (tname : String) (deps : List String)
    (tscfg : Option (List (String × Option (List String)))) :
    (tname ∈ deps →
      mapDependenciesRun tname deps tscfg =
        ⟨false, some ("Circular dependency detected, " ++ tname ++ " depends on itself"), []⟩)
    ∧ (∀ paths d dl, tscfg = some paths → (d, some dl) ∈ paths → d ∈ deps → tname ∈ dl →
        (mapDependenciesRun tname deps tscfg).written = false
        ∧ (mapDependenciesRun tname deps tscfg).err ≠ Option.none)
    ∧ (tscfg = Option.none → tname ∉ deps →
        mapDependenciesRun tname deps tscfg =
          ⟨true, Option.none,
            ["No tsconfig.json provided, skipping circular dependency check for local dependencies"]⟩)
    ∧ (∀ a b c : String, a ≠ b → a ≠ c → b ≠ c →
        mapDependenciesRun a [b] (some [(b, some [c]), (c, some [a])]) =
          ⟨true, Option.none, []⟩) := by
  refine ⟨fun h => ?_, fun paths d dl hcfg hmem hd ht => ?_, fun hcfg hnm => ?_,
    fun a b c hab hac hbc => ?_⟩
  · simp [mapDependenciesRun, verifyCircularDependency, h]
  · subst hcfg
    by_cases hself : tname ∈ deps
    · simp [mapDependenciesRun, verifyCircularDependency, hself]
    · have hfind : (paths.find? fun pr =>
          decide (pr.1 ∈ deps) && decide (tname ∈ pr.2.getD [])).isSome :=
        List.find?_isSome.mpr ⟨(d, some dl), hmem, by simp [hd, ht]⟩
      rcases Option.isSome_iff_exists.mp hfind with ⟨pr, hpr⟩
      simp [mapDependenciesRun, verifyCircularDependency, hself, hpr]
  · subst hcfg
    simp [mapDependenciesRun, verifyCircularDependency, hnm]
  · have hcb : c ≠ b := hbc.symm
    simp [mapDependenciesRun, verifyCircularDependency, List.find?, hab, hac, hcb]

/-- C8 witness: concrete self-cycle, 2-cycle, skipped check and undetected
3-cycle, all through the theorem at explicit package names. -/
theorem verifyCircularDependency_spec_witness :
    mapDependenciesRun "@x/core" ["@x/core"] Option.none =
      ⟨false, some ("Circular dependency detected, " ++ "@x/core" ++ " depends on itself"), []⟩
    ∧ ((mapDependenciesRun "@x/a" ["@x/b"] (some [("@x/b", some ["@x/a"])])).written = false
        ∧ (mapDependenciesRun "@x/a" ["@x/b"] (some [("@x/b", some ["@x/a"])])).err ≠ Option.none)
    ∧ mapDependenciesRun "@x/p" ["lodash"] Option.none =
        ⟨true, Option.none,
          ["No tsconfig.json provided, skipping circular dependency check for local dependencies"]⟩
    ∧ mapDependenciesRun "pkga" ["pkgb"] (some [("pkgb", some ["pkgc"]), ("pkgc", some ["pkga"])]) =
        ⟨true, Option.none, []⟩ := by
  refine ⟨?_, ?_, ?_, ?_⟩
  · exact (verifyCircularDependency_spec "@x/core" ["@x/core"] Option.none).1 (by decide)
  · exact (verifyCircularDependency_spec "@x/a" ["@x/b"] _).2.1 _ "@x/b" ["@x/a"] rfl
      (by decide) (by decide) (by decide)
  · exact (verifyCircularDependency_spec "@x/p" ["lodash"] Option.none).2.2.1 rfl (by decide)
  · exact (verifyCircularDependency_spec "x" [] Option.none).2.2.2 "pkga" "pkgb" "pkgc"
      (by decide) (by decide) (by decide)

/-- C2: a manifest with a falsy name or version makes the precondition
check fatal when no soft-error override is given (the run stops with no
step performed), and under the soft-error override — as the monorepo
fan-out sets it — the failure is demoted to a skip of that sibling's
pipeline: no build, no manifest write, no publish, while the batch's other
siblings keep their own results. -/
theorem runIsolated_precondition_soft_error (fl : Flags) (g : GitEnv) (pjson : Pjson)
    (hbad : truthyS pjson.name = false ∨ truthyS pjson.version = false) :
    (∃ m, runIsolated fl g pjson Option.none = ⟨[], some (PubErr.fatal m), Option.none⟩)
    ∧ (∀ o : Override, o.soft_error = true →
        ∃ m, runIsolated fl g pjson (some o) = ⟨[], some (PubErr.softSkip m), Option.none⟩)
    ∧ (∀ libs : List (String × Pjson), ∀ lp ∈ libs, lp.2 = pjson →
        (runMonorepo fl g libs).err = Option.none →
        ∃ m, RunResult.mk [] (some (PubErr.softSkip m)) Option.none ∈
          (runMonorepo fl g libs).sib_results) := by
  have hverF : ∃ m, verifyPreconditions pjson false = some (PubErr.fatal m) := by
    cases hn : truthyS pjson.name
    · exact ⟨"No name specified in package.json", by simp [verifyPreconditions, hn]⟩
    · rcases hbad with hn2 | hv
      · rw [hn] at hn2
        exact absurd hn2 (by decide)
      · exact ⟨"No version specified in package.json", by simp [verifyPreconditions, hn, hv]⟩
  have hverT : ∃ m, verifyPreconditions pjson true = some (PubErr.softSkip m) := by
    cases hn : truthyS pjson.name
    · exact ⟨"No name specified in package.json",
        by simp [verifyPreconditions, safeErrorModel, hn]⟩
    · rcases hbad with hn2 | hv
      · rw [hn] at hn2
        exact absurd hn2 (by decide)
      · exact ⟨"No version specified in package.json",
          by simp [verifyPreconditions, safeErrorModel, hn, hv]⟩
  have hbSoft : ∀ o : Override, o.soft_error = true →
      ∃ m, runIsolated fl g pjson (some o) = ⟨[], some (PubErr.softSkip m), Option.none⟩ := by
    intro o hso
    obtain ⟨m, hm⟩ := hverT
    exact ⟨m, by simp [runIsolated, hso, hm]⟩
  refine ⟨?_, hbSoft, ?_⟩
  · obtain ⟨m, hm⟩ := hverF
    exact ⟨m, by simp [runIsolated, hm]⟩
  · intro libs lp hmem hlp hok
    cases hl : g.latest with
    | none => simp [runMonorepo, hl] at hok
    | some latest =>
      cases hg : findGreatestRelease g (libs.map Prod.snd) with
      | none => simp [runMonorepo, hl, hg] at hok
      | some gr =>
        by_cases hb : g.build_ok
        · by_cases hgate : (g.history gr.reference_commit.commit = [] ∧
              fl.continue_flag = false ∧ g.confirm = false)
          · simp [runMonorepo, hl, hg, hb, hgate] at hok
          · obtain ⟨m, hri⟩ := hbSoft
              { target := lp.1
                soft_error := true
                build := false
                omit_continue_question := true
                latest_commit := latest
                greatest_release := gr
                commit_history := g.history gr.reference_commit.commit } rfl
            refine ⟨m, ?_⟩
            simp [runMonorepo, hl, hg, hb, hgate]
            refine ⟨lp.1, lp.2, by simpa using hmem, ?_⟩
            rw [hlp]
            exact hri
        · simp [runMonorepo, hl, hg, hb] at hok

/-- C2 witness: a nameless manifest is fatal without the override, skipped
with it, and inside a concrete two-sibling batch the broken sibling's
result is exactly the skip. -/
theorem runIsolated_precondition_soft_error_witness :
    (truthyS (Pjson.mk Option.none (some "1.2.4") Option.none).name = false ∨
      truthyS (Pjson.mk Option.none (some "1.2.4") Option.none).version = false)
    ∧ (∃ m, runIsolated defaultFlags exGitAB ⟨Option.none, some "1.2.4", Option.none⟩ Option.none =
        ⟨[], some (PubErr.fatal m), Option.none⟩)
    ∧ (∃ m, RunResult.mk [] (some (PubErr.softSkip m)) Option.none ∈
        (runMonorepo defaultFlags exGitAB
          [("libA", exSibA), ("libB", ⟨Option.none, some "1.2.4", Option.none⟩)]).sib_results) := by
  have h := runIsolated_precondition_soft_error defaultFlags exGitAB
    ⟨Option.none, some "1.2.4", Option.none⟩ (Or.inl rfl)
  refine ⟨Or.inl rfl, h.1, ?_⟩
  exact h.2.2 [("libA", exSibA), ("libB", ⟨Option.none, some "1.2.4", Option.none⟩)]
    ("libB", ⟨Option.none, some "1.2.4", Option.none⟩) (by decide) rfl (by decide)

/-- C9: with zero commits since the resolved reference commit, no
force-continue flag and a declined confirmation, an isolated run stops
with exit code 1 before the manifest is written and before publish: the
trace holds neither a manifest write nor a publish step. -/
theorem runIsolated_zero_commits_declined (fl : Flags) (g : GitEnv) (pjson : Pjson)
    (hash : String)
    (hpre : verifyPreconditions pjson false = Option.none)
    (hl : g.latest = some hash)
    (hh : g.history (resolvedRef pjson hash) = [])
    (hcont : fl.continue_flag = false)
    (hconf : g.confirm = false) :
    (runIsolated fl g pjson Option.none).err = some (PubErr.exitCode 1)
    ∧ (runIsolated fl g pjson Option.none).written = Option.none
    ∧ Ev.manifestWritten ∉ (runIsolated fl g pjson Option.none).events
    ∧ Ev.published ∉ (runIsolated fl g pjson Option.none).events := by
  have hh2 : g.history ((pjson.aetheria.getD ⟨Option.none, []⟩).reference_commit.getD hash) = [] := by
    simpa [resolvedRef] using hh
  by_cases hbuild : fl.build <;>
    simp [runIsolated, latestOf, hpre, hl, hh2, hcont, hconf, hbuild]

/-- C9 witness: a concrete run with an empty history, `continue` unset and
the confirmation declined exits with code 1, writing and publishing
nothing. -/
theorem runIsolated_zero_commits_declined_witness :
    (runIsolated flagsIso ⟨some "h1", fun _ => [], false, true⟩ exPj100 Option.none).err =
      some (PubErr.exitCode 1)
    ∧ (runIsolated flagsIso ⟨some "h1", fun _ => [], false, true⟩ exPj100 Option.none).written =
        Option.none
    ∧ Ev.manifestWritten ∉
        (runIsolated flagsIso ⟨some "h1", fun _ => [], false, true⟩ exPj100 Option.none).events
    ∧ Ev.published ∉
        (runIsolated flagsIso ⟨some "h1", fun _ => [], false, true⟩ exPj100 Option.none).events :=
  runIsolated_zero_commits_declined flagsIso ⟨some "h1", fun _ => [], false, true⟩ exPj100 "h1"
    (by decide) rfl rfl rfl rfl

/-- C1 counterexample: two siblings whose stored versions `1.0.0+a` and
`1.0.0+b` are equal in semver precedence (build metadata is ignored by
`semver.gt`) reconcile to the *second* one — the incoming version replaces
the running maximum on equality, so the first-seen sibling does not win;
and a lone sibling at `0.0.0-alpha` reconciles to the reducer's initial
`0.0.0`, which is not any sibling's stored version. -/
theorem findGreatestRelease_tie_counterexample :
    (findGreatestRelease exGitNil [exTieA, exTieB]).map GreatestRelease.greatest_version =
      some "1.0.0+b"
    ∧ [sibVersion exTieA, sibVersion exTieB] = ["1.0.0+a", "1.0.0+b"]
    ∧ semverGtStr "1.0.0+a" "1.0.0+b" = some false
    ∧ semverGtStr "1.0.0+b" "1.0.0+a" = some false
    ∧ "1.0.0+b" ≠ "1.0.0+a"
    ∧ (findGreatestRelease exGitNil [exPreLow]).map GreatestRelease.greatest_version = some "0.0.0"
    ∧ "0.0.0" ∉ [sibVersion exPreLow] := by
  decide

/-- C1 (amended): the reconciled `greatest_version` is a maximum by semver
precedence of the default `0.0.0` together with all siblings' stored
versions (no parsable stored version exceeds it, and it is the default or
one of the stored versions); on versions equal in precedence the reduce
step keeps the incoming value, so the last-seen sibling wins equality. -/
theorem findGreatestRelease_greatest_version_max (g : GitEnv) (pjsons : List Pjson)
    (gr : GreatestRelease) (hfind : findGreatestRelease g pjsons = some gr) :
    (∃ vg, parseSemVer gr.greatest_version = some vg ∧
      ∀ p ∈ pjsons, ∀ vp, parseSemVer (sibVersion p) = some vp → semverCmp vp vg ≠ .gt)
    ∧ gr.greatest_version ∈ "0.0.0" :: pjsons.map sibVersion
    ∧ (∀ a b va vb, parseSemVer a = some va → parseSemVer b = some vb →
        semverCmp va vb ≠ .gt → gvStep a b = some b) := by
  unfold findGreatestRelease at hfind
  rcases Option.map_eq_some'.mp hfind with ⟨gv, hgv, hgr⟩
  have hz : parseSemVer "0.0.0" = some ⟨0, 0, 0, [], []⟩ := by decide
  obtain ⟨vr, hvr, hle0, hall, hmem⟩ :=
    gvFold_spec (pjsons.map sibVersion) "0.0.0" ⟨0, 0, 0, [], []⟩ hz gv hgv
  refine ⟨⟨vr, ?_, ?_⟩, ?_, ?_⟩
  · rw [← hgr]
    exact hvr
  · intro p hp vp hvp
    exact hall (sibVersion p) (List.mem_map_of_mem _ hp) vp hvp
  · rw [← hgr]
    exact hmem
  · intro a b va vb hva hvb hle
    unfold gvStep semverGtStr
    rw [hva, hvb]
    simp [semverGt_eq_false_of_le hle]

/-- C1 witness: the fold over stored versions `1.2.3` and `1.2.4`
reconciles to `1.2.4`, which the theorem places among the candidates. -/
theorem findGreatestRelease_greatest_version_max_witness :
    findGreatestRelease exGitNil [exSibA, exSibB] = some ⟨"1.2.4", ⟨0, "HEAD"⟩⟩
    ∧ (GreatestRelease.mk "1.2.4" ⟨0, "HEAD"⟩).greatest_version ∈
        "0.0.0" :: [exSibA, exSibB].map sibVersion := by
  have h := findGreatestRelease_greatest_version_max exGitNil [exSibA, exSibB]
    ⟨"1.2.4", ⟨0, "HEAD"⟩⟩ (by decide)
  exact ⟨by decide, h.2.1⟩

/-- C7 counterexample: a lone sibling whose stored reference commit `abc`
is zero commits behind HEAD is the strictly greatest sibling, yet the
reconciled reference commit is the reducer's initial `{total: 0, commit:
"HEAD"}`, not the sibling's `abc`. -/
theorem findGreatestRelease_reference_counterexample :
    (findGreatestRelease exGitNil [exStoredRef]).map GreatestRelease.reference_commit =
      some ⟨0, "HEAD"⟩
    ∧ sibCommits exGitNil [exStoredRef] = [⟨0, "abc"⟩]
    ∧ sibRef exStoredRef = "abc"
    ∧ "HEAD" ≠ "abc" := by
  decide

/-- C7 (amended): the reconciled reference commit is the first sibling
record attaining the maximal reference-to-HEAD count when that maximum is
positive — equal counts keep the running (earlier) record, a strictly
greater one replaces it — and is the initial `{total: 0, commit: "HEAD"}`
accumulator when every sibling's count is zero; in all cases the
reconciled `total` is the maximum count observed (0 for an empty
batch). -/
theorem findGreatestRelease_reference_commit (g : GitEnv) (pjsons : List Pjson)
    (gr : GreatestRelease) (hfind : findGreatestRelease g pjsons = some gr) :
    gr.reference_commit = specReferenceChoice (sibCommits g pjsons)
    ∧ gr.reference_commit.total = totalsMax (sibCommits g pjsons)
    ∧ (∀ acc cur : RefCommit, cur.total ≤ acc.total → refStep acc cur = acc)
    ∧ (∀ acc cur : RefCommit, acc.total < cur.total → refStep acc cur = cur) := by
  unfold findGreatestRelease at hfind
  rcases Option.map_eq_some'.mp hfind with ⟨gv, hgv, hgr⟩
  have hrc : gr.reference_commit = (sibCommits g pjsons).foldl refStep ⟨0, "HEAD"⟩ := by
    rw [← hgr]
  have hfold := refFold_spec (sibCommits g pjsons) ⟨0, "HEAD"⟩
  have hchoice : (sibCommits g pjsons).foldl refStep ⟨0, "HEAD"⟩ =
      specReferenceChoice (sibCommits g pjsons) := by
    rw [hfold]
    unfold specReferenceChoice
    by_cases h0 : totalsMax (sibCommits g pjsons) = 0
    · rw [if_neg (by simp [h0]), if_pos h0]
    · rw [if_pos (by simp; omega), if_neg h0]
  refine ⟨hrc.trans hchoice, ?_, fun acc cur h => ?_, fun acc cur h => ?_⟩
  · rw [hrc.trans hchoice]
    unfold specReferenceChoice
    by_cases h0 : totalsMax (sibCommits g pjsons) = 0
    · rw [if_pos h0, h0]
    · rw [if_neg h0]
      rcases totalsMax_attained (sibCommits g pjsons) with hz | ⟨c, hc, hct⟩
      · exact absurd hz h0
      · have hfindSome : ((sibCommits g pjsons).find? fun d =>
            d.total == totalsMax (sibCommits g pjsons)).isSome :=
          List.find?_isSome.mpr ⟨c, hc, by simp [hct]⟩
        rcases Option.isSome_iff_exists.mp hfindSome with ⟨x, hx⟩
        rw [hx]
        have := List.find?_some hx
        simpa using this
  · simp only [refStep]
    rw [if_neg (by omega)]
  · simp only [refStep]
    rw [if_pos (by omega)]

/-- C7 witness: with sibling A three and sibling B five commits behind
HEAD, reconciliation selects B's reference commit with total 5, the
maximal count, matching the spec-side first-maximum choice. -/
theorem findGreatestRelease_reference_commit_witness :
    findGreatestRelease exGitAB [exSibA, exSibB] = some ⟨"1.2.4", ⟨5, "b5"⟩⟩
    ∧ (GreatestRelease.mk "1.2.4" ⟨5, "b5"⟩).reference_commit.total =
        totalsMax (sibCommits exGitAB [exSibA, exSibB])
    ∧ (GreatestRelease.mk "1.2.4" ⟨5, "b5"⟩).reference_commit =
        specReferenceChoice (sibCommits exGitAB [exSibA, exSibB]) := by
  have h := findGreatestRelease_reference_commit exGitAB [exSibA, exSibB]
    ⟨"1.2.4", ⟨5, "b5"⟩⟩ (by decide)
  exact ⟨by decide, h.2.1, h.1⟩

/-- C6 counterexample: on the valid semantic version `1.0.0-alpha` a patch
bump does not increment the patch component — node-semver's `inc` merely
drops the prerelease, yielding `1.0.0` with patch component 0, not
`0 + 1`. -/
theorem bump_prerelease_counterexample :
    semverInc "1.0.0-alpha" Release.patch = some "1.0.0"
    ∧ applyBump ⟨some "p", some "1.0.0-alpha", Option.none⟩ ⟨false, false, true⟩ =
        ⟨some "p", some "1.0.0", Option.none⟩
    ∧ (parseSemVer "1.0.0-alpha").map (fun v => (incVersion Release.patch v).patch) = some 0
    ∧ (parseSemVer "1.0.0-alpha").map (fun v => v.patch + 1) = some 1
    ∧ (0 : Nat) ≠ 1 := by
  decide

/-- C6 (amended): for versions with no prerelease identifiers, bump `none`
leaves the version unchanged (this part holds for every manifest), `patch`
increments patch, `minor` increments minor and zeroes patch, `major`
increments major and zeroes minor and patch; and a supplied monorepo
baseline replaces the stored version before the bump, so current `1.0.0`
with baseline `2.0.0` and a pending patch writes `2.0.1`. -/
theorem bump_semantics (v : SemVer) (p : Pjson) :
    applyBump p ⟨false, false, false⟩ = p
    ∧ (v.prerelease = [] →
        incVersion Release.patch v = ⟨v.major, v.minor, v.patch + 1, [], []⟩
        ∧ incVersion Release.minor v = ⟨v.major, v.minor + 1, 0, [], []⟩
        ∧ incVersion Release.major v = ⟨v.major + 1, 0, 0, [], []⟩)
    ∧ ((runIsolated flagsIso exGitFix exPj100 (some exOvBaseline)).written.map
        fun pc => pc.1.version) = some (some "2.0.1") := by
  refine ⟨by simp [applyBump], fun hpre => ⟨?_, ?_, ?_⟩, by decide⟩ <;>
    simp [incVersion, hpre]

/-- C6 witness: the bump laws evaluated at `1.2.3`, and the identity bump
at a concrete manifest. -/
theorem bump_semantics_witness :
    incVersion Release.patch ⟨1, 2, 3, [], []⟩ = ⟨1, 2, 4, [], []⟩
    ∧ incVersion Release.minor ⟨1, 2, 3, [], []⟩ = ⟨1, 3, 0, [], []⟩
    ∧ incVersion Release.major ⟨1, 2, 3, [], []⟩ = ⟨2, 0, 0, [], []⟩
    ∧ applyBump exPj100 ⟨false, false, false⟩ = exPj100 := by
  have h := bump_semantics ⟨1, 2, 3, [], []⟩ exPj100
  exact ⟨(h.2.1 rfl).1, (h.2.1 rfl).2.1, (h.2.1 rfl).2.2, h.1⟩

/-- C4, the code's actual behavior at the failing input: with stored
version `not-a-version` and one pending `fix:` commit, `semver.inc`
returns `null`, no error of any kind is raised, the manifest is written
with a null version, and publish still runs — there is no fatal
InvalidVersionError in the code. -/
theorem bumpVersion_invalid_version_no_error :
    semverInc "not-a-version" Release.patch = Option.none
    ∧ (runIsolated flagsIso exGitFix exPjInvalid Option.none).err = Option.none
    ∧ ((runIsolated flagsIso exGitFix exPjInvalid Option.none).written.map
        fun pc => pc.1.version) = some Option.none
    ∧ Ev.manifestWritten ∈ (runIsolated flagsIso exGitFix exPjInvalid Option.none).events
    ∧ Ev.published ∈ (runIsolated flagsIso exGitFix exPjInvalid Option.none).events := by
  decide

/-- C3 counterexample: in a concrete isolated run with building enabled
both the build trigger and the history fetch occur, but the history fetch
does not precede the build trigger — the build is triggered first. -/
theorem runIsolated_build_before_history_counterexample :
    (runIsolated flagsIso exGitFix exPj100 Option.none).events =
      [Ev.buildTriggered, Ev.latestFetched, Ev.historyFetched, Ev.buildCompleted,
        Ev.manifestWritten, Ev.assetsStaged, Ev.published]
    ∧ flagsIso.build = true
    ∧ occursBefore Ev.historyFetched Ev.buildTriggered
        (runIsolated flagsIso exGitFix exPj100 Option.none).events = false
    ∧ Ev.buildTriggered ∈ (runIsolated flagsIso exGitFix exPj100 Option.none).events
    ∧ Ev.historyFetched ∈ (runIsolated flagsIso exGitFix exPj100 Option.none).events := by
  decide

/-- Every trace `runIsolated` can produce: an optional build trigger,
then optionally the latest-commit fetch, then optionally the history
fetch, then — when the run reaches the tail — the build completion (iff a
build was triggered), the manifest write, optional asset staging and
optional publish. -/
theorem runIsolated_events_shape (fl : Flags) (g : GitEnv) (p : Pjson) (ov : Option Override) :
    ∃ (b lf hf st pb tl : Bool),
      (runIsolated fl g p ov).events =
        (if b then [Ev.buildTriggered] else []) ++ (if lf then [Ev.latestFetched] else []) ++
        (if hf then [Ev.historyFetched] else []) ++
        (if tl then
          (if b then [Ev.buildCompleted] else []) ++ [Ev.manifestWritten] ++
          (if st then [Ev.assetsStaged] else []) ++ (if pb then [Ev.published] else [])
        else []) := by
  cases ov with
  | some o =>
    simp only [runIsolated, latestOf, Option.map_some', Option.getD_some]
    split
    · exact ⟨false, false, false, false, false, false, by simp⟩
    · split
      · exact ⟨o.build, false, false, false, false, false, by simp⟩
      · split
        · exact ⟨o.build, false, false, false, false, false, by simp⟩
        · exact ⟨o.build, false, false, fl.nx_target.isNone, fl.publish, true, by simp⟩
  | none =>
    cases hl : g.latest with
    | none =>
      simp only [runIsolated, latestOf, hl, Option.map_none', Option.getD_none]
      split
      · exact ⟨false, false, false, false, false, false, by simp⟩
      · exact ⟨fl.build, false, false, false, false, false, by simp⟩
    | some latest =>
      simp only [runIsolated, latestOf, hl, Option.map_none', Option.getD_none]
      split
      · exact ⟨false, false, false, false, false, false, by simp⟩
      · split
        · exact ⟨fl.build, true, true, false, false, false, by simp⟩
        · split
          · exact ⟨fl.build, true, true, false, false, false, by simp⟩
          · exact ⟨fl.build, true, true, fl.nx_target.isNone, fl.publish, true, by simp⟩

/-- C3 (amended): in every isolated run the commit history is fetched
*after* the build is triggered, never before (the two proceed
concurrently until the build is awaited), and assets are never staged
before the build completes; in monorepo mode the history is fetched only
after the batch build has completed. -/
theorem pipeline_build_history_order (fl : Flags) (g : GitEnv) (p : Pjson)
    (ov : Option Override) (libs : List (String × Pjson)) :
    occursBefore Ev.historyFetched Ev.buildTriggered (runIsolated fl g p ov).events = false
    ∧ occursBefore Ev.assetsStaged Ev.buildCompleted (runIsolated fl g p ov).events = false
    ∧ (Ev.buildTriggered ∈ (runIsolated fl g p ov).events →
        Ev.historyFetched ∈ (runIsolated fl g p ov).events →
        occursBefore Ev.buildTriggered Ev.historyFetched (runIsolated fl g p ov).events = true)
    ∧ occursBefore Ev.historyFetched Ev.buildCompleted (runMonorepo fl g libs).events = false
    ∧ (Ev.historyFetched ∈ (runMonorepo fl g libs).events →
        occursBefore Ev.buildCompleted Ev.historyFetched (runMonorepo fl g libs).events = true) := by
  have hiso : occursBefore Ev.historyFetched Ev.buildTriggered
        (runIsolated fl g p ov).events = false
      ∧ occursBefore Ev.assetsStaged Ev.buildCompleted (runIsolated fl g p ov).events = false
      ∧ (Ev.buildTriggered ∈ (runIsolated fl g p ov).events →
          Ev.historyFetched ∈ (runIsolated fl g p ov).events →
          occursBefore Ev.buildTriggered Ev.historyFetched
            (runIsolated fl g p ov).events = true) := by
    obtain ⟨b, lf, hf, st, pb, tl, he⟩ := runIsolated_events_shape fl g p ov
    rw [he]
    cases b <;> cases lf <;> cases hf <;> cases st <;> cases pb <;> cases tl <;> decide
  have hmono : occursBefore Ev.historyFetched Ev.buildCompleted
        (runMonorepo fl g libs).events = false
      ∧ (Ev.historyFetched ∈ (runMonorepo fl g libs).events →
          occursBefore Ev.buildCompleted Ev.historyFetched
            (runMonorepo fl g libs).events = true) := by
    unfold runMonorepo
    split
    · decide
    · split
      · decide
      · split
        · decide
        · dsimp only
          split <;> refine ⟨by rfl, fun hm => by rfl⟩
  exact ⟨hiso.1, hiso.2.1, hiso.2.2, hmono.1, hmono.2⟩

/-- C3 witness: in a concrete isolated build-enabled run the trigger
precedes the history fetch, and in a concrete monorepo run the build
completion precedes the history fetch. -/
theorem pipeline_build_history_order_witness :
    occursBefore Ev.historyFetched Ev.buildTriggered
      (runIsolated flagsIso exGitFix exPj100 Option.none).events = false
    ∧ occursBefore Ev.buildTriggered Ev.historyFetched
        (runIsolated flagsIso exGitFix exPj100 Option.none).events = true
    ∧ occursBefore Ev.buildCompleted Ev.historyFetched
        (runMonorepo defaultFlags exGitAB [("libA", exSibA)]).events = true := by
  have h₁ := pipeline_build_history_order flagsIso exGitFix exPj100 Option.none []
  have h₂ := pipeline_build_history_order defaultFlags exGitAB exPj100 Option.none
    [("libA", exSibA)]
  exact ⟨h₁.1, h₁.2.2.1 (by decide) (by decide), h₂.2.2.2.2 (by decide)⟩

end Aetheria
